import Mathlib

/-!
Shallow embedding of the ODTÜClass grade monitor (`grade_monitor.py`).

Python dictionaries (insertion-ordered, unique keys) are modelled as
association lists `List (String × α)`; iteration over a dictionary is
iteration over the list, and `d.get(k)` returns the first entry with key
`k`.  The diff engine `compare_and_notify`, the backoff scheduler
(`BackoffManager.get_wait_time` together with the sleep expression of
`ODTUClassMonitor.run`), the cycle orchestration `check_grades`, and the
grade-text cleanup of `fetch_course_details` are embedded as executable
functions below.
-/

/-- The value stored under an assignment name inside a course's
`assignments` dictionary: `{'grade': ..., 'weight': ..., 'average': ...}`,
all free-form display strings. -/
structure AssignData where
  grade : String
  weight : String
  average : String
  deriving DecidableEq

/-- The value stored under a course name in the grades history:
`{'course_id': ..., 'overall_grade': ..., 'assignments': ..., 'last_updated': ...}`. -/
structure CourseData where
  course_id : String
  overall_grade : String
  assignments : List (String × AssignData)
  last_updated : String
  deriving DecidableEq

/-- The persisted grades history: a dictionary from course name to course data. -/
abbrev GradeHistory := List (String × CourseData)

/-- Python `d.get(k)` on an insertion-ordered dictionary: the first entry whose
key equals `k`, if any. -/
def dictGet {α : Type} (d : List (String × α)) (k : String) : Option α :=
  match d with
  | [] => none
  | (k', v) :: rest => if k' = k then some v else dictGet rest k

/-- Python `assignments.get(k, {}).get('grade', '-')`: the grade stored under
key `k`, or the `"-"` sentinel when the key is absent. -/
def gradeOf (d : List (String × AssignData)) (k : String) : String :=
  match dictGet d k with
  | some a => a.grade
  | none => "-"

/-- Python `str.lower()`: lowercase every character. -/
def pyLower (s : String) : String :=
  String.mk (s.data.map Char.toLower)

/-- Python `str.strip()`: drop leading and trailing whitespace. -/
def pyStrip (s : String) : String :=
  String.mk (((s.data.dropWhile Char.isWhitespace).reverse.dropWhile
    Char.isWhitespace).reverse)

/-- Python `str.split('\n')[0]`: the prefix before the first newline (the
whole string when it contains none). -/
def pySplitHead (s : String) : String :=
  String.mk (s.data.takeWhile (fun c => c ≠ '\n'))

/-- A change dictionary appended to the `changes` list by
`compare_and_notify`.  The new-course branch builds a dictionary without an
`old_course_total` key, hence the `Option` on that field of
`newAssignment`; `updated_assignment` dictionaries always carry it. -/
inductive Change where
  | newAssignment (course assignment grade average weight course_total : String)
      (old_course_total : Option String)
  | updatedAssignment (course assignment old_grade new_grade average weight
      course_total old_course_total : String)
  deriving DecidableEq

/-- The `course` field of a change dictionary. -/
def eventCourse : Change → String
  | .newAssignment c _ _ _ _ _ _ => c
  | .updatedAssignment c _ _ _ _ _ _ _ => c

/-- The `assignment` field of a change dictionary. -/
def eventAssignment : Change → String
  | .newAssignment _ a _ _ _ _ _ => a
  | .updatedAssignment _ a _ _ _ _ _ _ => a

/-- The `course_total` field of a change dictionary. -/
def eventCourseTotal : Change → String
  | .newAssignment _ _ _ _ _ ct _ => ct
  | .updatedAssignment _ _ _ _ _ _ ct _ => ct

/-- The `old_course_total` field of a change dictionary (`none` when the
dictionary has no such key, which happens only in the new-course branch). -/
def eventOldCourseTotal : Change → Option String
  | .newAssignment _ _ _ _ _ _ oct => oct
  | .updatedAssignment _ _ _ _ _ _ _ oct => some oct

/-- Whether a change dictionary has `'type': 'new_assignment'`. -/
def isNewEvent : Change → Bool
  | .newAssignment _ _ _ _ _ _ _ => true
  | .updatedAssignment _ _ _ _ _ _ _ _ => false

/-- Loop body of the new-course branch of `compare_and_notify`: for one
assignment of a course absent from the old history, either skip it (when its
lowercased name is the reserved aggregate) or produce the `new_assignment`
change, whose dictionary has no `old_course_total` key. -/
def assignEventNew (cn nct an : String) (ad : AssignData) : Option Change :=
  if pyLower an = "course total" then none
  else some (.newAssignment cn an ad.grade ad.average ad.weight nct none)

/-- Loop body of the existing-course branch of `compare_and_notify`: skip the
aggregate (case-insensitively); emit `new_assignment` when the name is absent
from the old assignments; emit `updated_assignment` when the stored grade
string differs; emit nothing when the grade strings are equal. -/
def assignEventOld (cn oct nct : String) (oa : List (String × AssignData))
    (an : String) (ad : AssignData) : Option Change :=
  if pyLower an = "course total" then none
  else
    match dictGet oa an with
    | none => some (.newAssignment cn an ad.grade ad.average ad.weight nct (some oct))
    | some oad =>
      if oad.grade = ad.grade then none
      else some (.updatedAssignment cn an oad.grade ad.grade ad.average ad.weight nct oct)

/-- Changes contributed by one course absent from the old history. -/
def courseChangesNew (cn : String) (na : List (String × AssignData)) : List Change :=
  na.filterMap (fun p => assignEventNew cn (gradeOf na "Course total") p.1 p.2)

/-- Changes contributed by one course present in the old history, with
`oa`/`na` its old and new assignment dictionaries. -/
def courseChangesOld (cn : String) (oa na : List (String × AssignData)) : List Change :=
  na.filterMap
    (fun p => assignEventOld cn (gradeOf oa "Course total") (gradeOf na "Course total") oa p.1 p.2)

/-- Changes contributed by one entry of the new history, dispatching on
whether the course name occurs in the old history. -/
def courseEvents (old : GradeHistory) (cn : String) (cd : CourseData) : List Change :=
  match dictGet old cn with
  | none => courseChangesNew cn cd.assignments
  | some ocd => courseChangesOld cn ocd.assignments cd.assignments

/-- The `changes` list built by `ODTUClassMonitor.compare_and_notify`:
iterate over the new history in order, appending each course's changes. -/
def compareAndNotify (old : GradeHistory) : GradeHistory → List Change
  | [] => []
  | (cn, cd) :: rest => courseEvents old cn cd ++ compareAndNotify old rest

/-- Keys of an association list are pairwise distinct — the invariant every
Python dictionary satisfies by construction. -/
def nodupKeys {α : Type} (d : List (String × α)) : Prop :=
  (d.map Prod.fst).Nodup

instance {α : Type} (d : List (String × α)) : Decidable (nodupKeys d) := by
  unfold nodupKeys
  infer_instance

/-- `BackoffManager.get_wait_time`, in seconds: `60` when there are no
consecutive failures, otherwise `min(2 ** n, 30)` minutes. -/
def getWaitTime (n : Nat) : Nat :=
  if n = 0 then 60 else min (2 ^ n) 30 * 60

/-- The sleep performed at the bottom of `ODTUClassMonitor.run`'s loop:
`time.sleep(wait_seconds if wait_seconds > 60 else check_interval * 60)`,
where `wait_seconds = self.backoff.get_wait_time()` and `check_interval`
is the configured base interval in minutes. -/
def sleepSeconds (checkInterval n : Nat) : Nat :=
  if getWaitTime n > 60 then getWaitTime n else checkInterval * 60

/-- The observable outcome of one `ODTUClassMonitor.check_grades` call:
the changes produced, whether the one-time startup message was sent, the
contents written by `save_grades` (`none` when nothing was written), the
backoff counter afterwards, and the boolean results returned by each
`send_telegram_message` call (which `check_grades` ignores). -/
structure CycleOutcome where
  events : List Change
  sentStartup : Bool
  saved : Option GradeHistory
  failuresAfter : Nat
  sendResults : List Bool
  deriving DecidableEq

/-- `ODTUClassMonitor.check_grades`.  `oldGrades` is what
`load_previous_grades` returned, `fetched` is the result of `fetch_grades`
(`none` on failure), `failures` the backoff counter before the call, and
`sendOk` the transport: the boolean result of the i-th
`send_telegram_message` call of the cycle.  On fetch failure the function
records a failure and returns without saving; on success it resets the
backoff counter, diffs (or, when the loaded history is empty, sends the
startup message instead), and then saves the fetched snapshot. -/
def checkGrades (sendOk : Nat → Bool) (oldGrades : GradeHistory)
    (fetched : Option GradeHistory) (failures : Nat) : CycleOutcome :=
  match fetched with
  | none => ⟨[], false, none, failures + 1, []⟩
  | some newGrades =>
    if oldGrades.isEmpty then
      ⟨[], true, some newGrades, 0, [sendOk 0]⟩
    else
      let evs := compareAndNotify oldGrades newGrades
      ⟨evs, false, some newGrades, 0, (List.range evs.length).map sendOk⟩

/-- The state threaded between poll cycles: the contents of the history
file and the backoff counter. -/
structure MonState where
  history : GradeHistory
  failures : Nat
  deriving DecidableEq

/-- One poll cycle: run `check_grades` against the current history file and
backoff counter, and thread the resulting state (the file keeps its old
contents when nothing was saved). -/
def cycleStep (sendOk : Nat → Bool) (st : MonState)
    (fetched : Option GradeHistory) : MonState × CycleOutcome :=
  let out := checkGrades sendOk st.history fetched st.failures
  (⟨out.saved.getD st.history, out.failuresAfter⟩, out)

/-- Trace of the loop body of `ODTUClassMonitor.run` after login: each
executed cycle paired with the sleep that preceded it (`none` for a cycle
that ran without waiting).  The first `check_grades` call happens before
the loop, so it carries no wait; every later cycle waits
`sleepSeconds checkInterval n` where `n` is the failure counter left by
the previous cycle. -/
def runTraceGo (sendOk : Nat → Bool) (checkInterval : Nat) (w : Option Nat)
    (st : MonState) : List (Option GradeHistory) → List (Option Nat × CycleOutcome)
  | [] => []
  | f :: fs =>
    let so := cycleStep sendOk st f
    (w, so.2) :: runTraceGo sendOk checkInterval
      (some (sleepSeconds checkInterval so.1.failures)) so.1 fs

/-- `ODTUClassMonitor.run`: nothing runs when login fails; otherwise the
cycles consume the successive `fetch_grades` results, the first cycle
unconditionally (no preceding wait). -/
def runTrace (sendOk : Nat → Bool) (loginOk : Bool) (checkInterval : Nat)
    (st : MonState) (fetches : List (Option GradeHistory)) :
    List (Option Nat × CycleOutcome) :=
  if loginOk then runTraceGo sendOk checkInterval none st fetches else []

/-- Grade-text cleanup in `fetch_course_details`:
`grade_text = grade_text.split('\n')[0].strip() if grade_text else '-'`
followed by storing `grade_text if grade_text else '-'`. -/
def cleanGradeText (s : String) : String :=
  if s = "" then "-"
  else
    let firstLine := pyStrip (pySplitHead s)
    if firstLine = "" then "-" else firstLine

/-- One row of the `user-grade` table after element location: the text of
the `gradeitemheader` element (`none` when the element is missing), the
stripped texts of the row's `th`/`td` cells in order, and the text
extracted from the `column-grade` cell (`none` when that cell is missing). -/
structure RawRow where
  name : Option String
  cells : List String
  gradeText : Option String

/-- Body of the row loop of `fetch_course_details`: skip the row when the
name element is missing, fewer than 3 cells are present, or the grade cell
is missing; otherwise build the assignment record with the cleaned grade
text, the cell-1 weight and the cell-3 average (defaulting to `"-"`). -/
def parseRow (r : RawRow) : Option (String × AssignData) :=
  match r.name with
  | none => none
  | some n =>
    if r.cells.length < 3 then none
    else
      match r.gradeText with
      | none => none
      | some t =>
        let weight := if r.cells.length > 1 then r.cells.getD 1 "-" else "-"
        let average := if r.cells.length > 3 then r.cells.getD 3 "-" else "-"
        some (n, ⟨cleanGradeText t, weight, average⟩)

/-- Python dict assignment `d[k] = v` on an insertion-ordered dictionary:
update the existing entry in place, or append a new one. -/
def dictInsert {α : Type} (k : String) (v : α) (d : List (String × α)) :
    List (String × α) :=
  if d.any (fun p => p.1 == k) then
    d.map (fun p => if p.1 = k then (k, v) else p)
  else d ++ [(k, v)]

/-- The `assignments` dictionary built by `fetch_course_details` from the
rows of the `user-grade` table. -/
def fetchCourseDetails (rows : List RawRow) : List (String × AssignData) :=
  rows.foldl
    (fun acc r =>
      match parseRow r with
      | none => acc
      | some kv => dictInsert kv.1 kv.2 acc)
    []

/-- The sublist of changes whose `course` field is `cn`, in emission order. -/
def eventsForCourse (es : List Change) (cn : String) : List Change :=
  es.filter (fun e => eventCourse e == cn)

/-- The sublist of changes whose `assignment` field is `an`, in emission order. -/
def eventsForAssignment (es : List Change) (an : String) : List Change :=
  es.filter (fun e => eventAssignment e == an)

/-- Concrete data: the graded homework before and after a grade change. -/
def hwOld : AssignData := ⟨"50", "10%", "55"⟩

def hwNew : AssignData := ⟨"70", "10%", "58"⟩

/-- Concrete data: the "Course total" aggregate before and after. -/
def ctOld : AssignData := ⟨"60", "-", "-"⟩

def ctNew : AssignData := ⟨"80", "-", "-"⟩

def courseOld : CourseData :=
  ⟨"7", "B", [("HW", hwOld), ("Course total", ctOld)], "t0"⟩

def courseNew : CourseData :=
  ⟨"7", "B", [("HW", hwNew), ("Course total", ctNew)], "t1"⟩

def oldHist : GradeHistory := [("C", courseOld)]

def newHist : GradeHistory := [("C", courseNew)]

/-- Concrete data: a course whose only assignment is a case-variant of the
reserved aggregate name, with its grade changing between snapshots. -/
def capsOld : CourseData := ⟨"7", "B", [("COURSE TOTAL", ⟨"1", "-", "-"⟩)], "t0"⟩

def capsNew : CourseData := ⟨"7", "B", [("COURSE TOTAL", ⟨"2", "-", "-"⟩)], "t1"⟩

def oldCapsHist : GradeHistory := [("C", capsOld)]

def newCapsHist : GradeHistory := [("C", capsNew)]

/-- Concrete data: a changing homework next to a case-variant aggregate, so
the exact-key context lookup finds nothing. -/
def mixOld : CourseData :=
  ⟨"7", "B", [("HW", hwOld), ("COURSE TOTAL", ⟨"60", "-", "-"⟩)], "t0"⟩

def mixNew : CourseData :=
  ⟨"7", "B", [("HW", hwNew), ("COURSE TOTAL", ⟨"80", "-", "-"⟩)], "t1"⟩

def oldMixHist : GradeHistory := [("C", mixOld)]

def newMixHist : GradeHistory := [("C", mixNew)]

theorem dictGet_of_nodup {α : Type} (d : List (String × α)) (k : String) (v : α)
    (hnd : nodupKeys d) (hm : (k, v) ∈ d) : dictGet d k = some v := by
  induction d with
  | nil => cases hm
  | cons p rest ih =>
    obtain ⟨k', v'⟩ := p
    unfold nodupKeys at hnd
    rw [List.map_cons, List.nodup_cons] at hnd
    rcases List.mem_cons.mp hm with h | h
    · cases h
      simp [dictGet]
    · have hk : k' ≠ k := by
        intro hkk
        subst hkk
        have hkm : k' ∈ List.map Prod.fst rest := List.mem_map.mpr ⟨(k', v), h, rfl⟩
        exact hnd.1 hkm
      have ht := ih hnd.2 h
      simp [dictGet, hk, ht]

theorem assignEventNew_spec (cn nct an : String) (ad : AssignData) (e : Change)
    (h : assignEventNew cn nct an ad = some e) :
    eventCourse e = cn ∧ eventAssignment e = an ∧
      pyLower an ≠ "course total" ∧ eventCourseTotal e = nct ∧
      eventOldCourseTotal e = none ∧ isNewEvent e = true := by
  unfold assignEventNew at h
  split at h
  · exact absurd h (by simp)
  · next hne =>
    injection h with h
    subst h
    exact ⟨rfl, rfl, hne, rfl, rfl, rfl⟩

theorem assignEventOld_spec (cn oct nct : String) (oa : List (String × AssignData))
    (an : String) (ad : AssignData) (e : Change)
    (h : assignEventOld cn oct nct oa an ad = some e) :
    eventCourse e = cn ∧ eventAssignment e = an ∧
      pyLower an ≠ "course total" ∧ eventCourseTotal e = nct ∧
      eventOldCourseTotal e = some oct := by
  unfold assignEventOld at h
  split at h
  · exact absurd h (by simp)
  · next hne =>
    split at h
    · injection h with h
      subst h
      exact ⟨rfl, rfl, hne, rfl, rfl⟩
    · split at h
      · exact absurd h (by simp)
      · injection h with h
        subst h
        exact ⟨rfl, rfl, hne, rfl, rfl⟩

theorem courseChangesNew_spec (cn : String) (na : List (String × AssignData))
    (e : Change) (he : e ∈ courseChangesNew cn na) :
    eventCourse e = cn ∧ pyLower (eventAssignment e) ≠ "course total" ∧
      eventCourseTotal e = gradeOf na "Course total" ∧
      eventOldCourseTotal e = none ∧ isNewEvent e = true := by
  rw [courseChangesNew, List.mem_filterMap] at he
  obtain ⟨p, _, hp⟩ := he
  obtain ⟨h1, h2, h3, h4, h5, h6⟩ := assignEventNew_spec _ _ _ _ _ hp
  exact ⟨h1, h2 ▸ h3, h4, h5, h6⟩

theorem courseChangesOld_spec (cn : String) (oa na : List (String × AssignData))
    (e : Change) (he : e ∈ courseChangesOld cn oa na) :
    eventCourse e = cn ∧ pyLower (eventAssignment e) ≠ "course total" ∧
      eventCourseTotal e = gradeOf na "Course total" ∧
      eventOldCourseTotal e = some (gradeOf oa "Course total") := by
  rw [courseChangesOld, List.mem_filterMap] at he
  obtain ⟨p, _, hp⟩ := he
  obtain ⟨h1, h2, h3, h4, h5⟩ := assignEventOld_spec _ _ _ _ _ _ _ hp
  exact ⟨h1, h2 ▸ h3, h4, h5⟩

theorem courseEvents_spec (old : GradeHistory) (cn : String) (cd : CourseData)
    (e : Change) (he : e ∈ courseEvents old cn cd) :
    eventCourse e = cn ∧ pyLower (eventAssignment e) ≠ "course total" ∧
      eventCourseTotal e = gradeOf cd.assignments "Course total" ∧
      (∀ ocd, dictGet old cn = some ocd →
        eventOldCourseTotal e = some (gradeOf ocd.assignments "Course total")) ∧
      (dictGet old cn = none → eventOldCourseTotal e = none ∧ isNewEvent e = true) := by
  unfold courseEvents at he
  rcases hd : dictGet old cn with _ | ocd
  · rw [hd] at he
    obtain ⟨h1, h2, h3, h4, h5⟩ := courseChangesNew_spec _ _ _ he
    exact ⟨h1, h2, h3, fun _ hc => Option.noConfusion hc, fun _ => ⟨h4, h5⟩⟩
  · rw [hd] at he
    obtain ⟨h1, h2, h3, h4⟩ := courseChangesOld_spec _ _ _ _ he
    refine ⟨h1, h2, h3, fun ocd' hc => ?_, fun hc => Option.noConfusion hc⟩
    injection hc with hc
    subst hc
    exact h4

theorem mem_compareAndNotify (old new : GradeHistory) (e : Change)
    (he : e ∈ compareAndNotify old new) :
    ∃ cn cd, (cn, cd) ∈ new ∧ e ∈ courseEvents old cn cd := by
  induction new with
  | nil => cases he
  | cons p rest ih =>
    obtain ⟨cn, cd⟩ := p
    rw [compareAndNotify, List.mem_append] at he
    rcases he with h | h
    · exact ⟨cn, cd, List.mem_cons_self _ _, h⟩
    · obtain ⟨cn', cd', hm, hev⟩ := ih h
      exact ⟨cn', cd', List.mem_cons_of_mem _ hm, hev⟩

theorem compareAndNotify_filter_course (old : GradeHistory) (cn : String)
    (cd : CourseData) :
    ∀ (new : GradeHistory), nodupKeys new → (cn, cd) ∈ new →
      (compareAndNotify old new).filter (fun e => eventCourse e == cn) =
        courseEvents old cn cd := by
  intro new
  induction new with
  | nil => intro _ hm; cases hm
  | cons p rest ih =>
    intro hnd hm
    obtain ⟨cn', cd'⟩ := p
    unfold nodupKeys at hnd
    rw [List.map_cons, List.nodup_cons] at hnd
    rw [compareAndNotify, List.filter_append]
    rcases List.mem_cons.mp hm with h | h
    · cases h
      have hhead : (courseEvents old cn cd).filter (fun e => eventCourse e == cn) =
          courseEvents old cn cd := by
        apply List.filter_eq_self.mpr
        intro e hev
        have hc := (courseEvents_spec old cn cd e hev).1
        simp [hc]
      have htail : (compareAndNotify old rest).filter (fun e => eventCourse e == cn) = [] := by
        apply List.filter_eq_nil_iff.mpr
        intro e hev
        obtain ⟨cn'', cd'', hmem, hev'⟩ := mem_compareAndNotify old rest e hev
        have hc := (courseEvents_spec old cn'' cd'' e hev').1
        have hne : cn'' ≠ cn := by
          intro hx
          subst hx
          exact hnd.1 (List.mem_map.mpr ⟨(cn'', cd''), hmem, rfl⟩)
        simp [hc, hne]
      rw [hhead, htail, List.append_nil]
    · have hne : cn' ≠ cn := by
        intro hx
        subst hx
        exact hnd.1 (List.mem_map.mpr ⟨(cn', cd), h, rfl⟩)
      have hhead : (courseEvents old cn' cd').filter (fun e => eventCourse e == cn) = [] := by
        apply List.filter_eq_nil_iff.mpr
        intro e hev
        have hc := (courseEvents_spec old cn' cd' e hev).1
        simp [hc, hne]
      rw [hhead, List.nil_append]
      exact ih hnd.2 h

theorem filterMap_filter_key {α : Type} (tag : Change → String)
    (f : String → α → Option Change)
    (hf : ∀ k a e, f k a = some e → tag e = k) :
    ∀ (l : List (String × α)), nodupKeys l → ∀ k₀ a₀, (k₀, a₀) ∈ l →
      (l.filterMap (fun p => f p.1 p.2)).filter (fun e => tag e == k₀) =
        (f k₀ a₀).toList := by
  intro l
  induction l with
  | nil => intro _ k₀ a₀ hm; cases hm
  | cons p rest ih =>
    intro hnd k₀ a₀ hm
    obtain ⟨k, a⟩ := p
    unfold nodupKeys at hnd
    rw [List.map_cons, List.nodup_cons] at hnd
    have htag : ∀ e ∈ rest.filterMap (fun p => f p.1 p.2), tag e ∈ rest.map Prod.fst := by
      intro e hev
      obtain ⟨q, hq, hfq⟩ := List.mem_filterMap.mp hev
      rw [hf q.1 q.2 e hfq]
      exact List.mem_map.mpr ⟨q, hq, rfl⟩
    rcases List.mem_cons.mp hm with h | h
    · cases h
      have htail : (rest.filterMap (fun p => f p.1 p.2)).filter
          (fun e => tag e == k₀) = [] := by
        apply List.filter_eq_nil_iff.mpr
        intro e hev
        have hmem := htag e hev
        have hne : tag e ≠ k₀ := by
          intro hx
          rw [hx] at hmem
          exact hnd.1 hmem
        simp [hne]
      rcases hfk : f k₀ a₀ with _ | e₀
      · simp [List.filterMap_cons, hfk, htail]
      · have ht := hf _ _ _ hfk
        simp [List.filterMap_cons, hfk, List.filter_cons, ht, htail]
    · have hk : k ≠ k₀ := by
        intro hx
        subst hx
        exact hnd.1 (List.mem_map.mpr ⟨(k, a₀), h, rfl⟩)
      rcases hfk : f k a with _ | e₀
      · simp only [List.filterMap_cons, hfk]
        exact ih hnd.2 k₀ a₀ h
      · have ht := hf _ _ _ hfk
        have hne : ¬((tag e₀ == k₀) = true) := by simp [ht, hk]
        simp only [List.filterMap_cons, hfk, List.filter_cons]
        rw [if_neg hne]
        exact ih hnd.2 k₀ a₀ h

theorem courseChangesOld_self (cn : String) (xs : List (String × AssignData))
    (h : nodupKeys xs) : courseChangesOld cn xs xs = [] := by
  apply List.filterMap_eq_nil_iff.mpr
  intro p hp
  unfold assignEventOld
  split
  · rfl
  · rw [dictGet_of_nodup xs p.1 p.2 h hp]
    simp

theorem compareAndNotify_self_aux (A : GradeHistory) :
    ∀ (l : GradeHistory),
      (∀ p ∈ l, dictGet A p.1 = some p.2 ∧ nodupKeys p.2.assignments) →
      compareAndNotify A l = [] := by
  intro l
  induction l with
  | nil => intro _; rfl
  | cons p rest ih =>
    intro hp
    obtain ⟨cn, cd⟩ := p
    have h₁ := hp (cn, cd) (List.mem_cons_self _ _)
    have hce : courseEvents A cn cd =
        courseChangesOld cn cd.assignments cd.assignments := by
      unfold courseEvents
      rw [h₁.1]
    rw [compareAndNotify, hce, courseChangesOld_self cn cd.assignments h₁.2,
      List.nil_append]
    exact ih (fun q hq => hp q (List.mem_cons_of_mem _ hq))

theorem cleanGradeText_ne_empty (s : String) : cleanGradeText s ≠ "" := by
  unfold cleanGradeText
  by_cases h1 : s = ""
  · rw [if_pos h1]
    decide
  · rw [if_neg h1]
    show (if pyStrip (pySplitHead s) = "" then "-"
      else pyStrip (pySplitHead s)) ≠ ""
    by_cases h2 : pyStrip (pySplitHead s) = ""
    · rw [if_pos h2]
      decide
    · rw [if_neg h2]
      exact h2

theorem parseRow_grade_nonempty (r : RawRow) (k : String) (v : AssignData)
    (h : parseRow r = some (k, v)) : v.grade ≠ "" := by
  unfold parseRow at h
  split at h
  · cases h
  · split at h
    · cases h
    · split at h
      · cases h
      · injection h with h
        cases h
        exact cleanGradeText_ne_empty _

theorem mem_dictInsert {α : Type} (k : String) (v : α) (d : List (String × α))
    (q : String × α) (hq : q ∈ dictInsert k v d) : q = (k, v) ∨ q ∈ d := by
  unfold dictInsert at hq
  split at hq
  · obtain ⟨p, hp, hpq⟩ := List.mem_map.mp hq
    by_cases hk : p.1 = k
    · rw [if_pos hk] at hpq
      left
      exact hpq.symm
    · rw [if_neg hk] at hpq
      right
      exact hpq ▸ hp
  · rcases List.mem_append.mp hq with h | h
    · right
      exact h
    · left
      simpa using h

theorem fetchCourseDetails_aux :
    ∀ (rows : List RawRow) (acc : List (String × AssignData)),
      (∀ q ∈ acc, q.2.grade ≠ "") →
      ∀ q ∈ rows.foldl
        (fun acc r =>
          match parseRow r with
          | none => acc
          | some kv => dictInsert kv.1 kv.2 acc) acc,
        q.2.grade ≠ "" := by
  intro rows
  induction rows with
  | nil =>
    intro acc hacc q hq
    exact hacc q hq
  | cons r rest ih =>
    intro acc hacc q hq
    rw [List.foldl_cons] at hq
    rcases hp : parseRow r with _ | kv
    · rw [hp] at hq
      exact ih acc hacc q hq
    · rw [hp] at hq
      refine ih (dictInsert kv.1 kv.2 acc) ?_ q hq
      intro q' hq'
      rcases mem_dictInsert kv.1 kv.2 acc q' hq' with h | h
      · rw [h]
        exact parseRow_grade_nonempty r kv.1 kv.2 (by rw [hp])
      · exact hacc q' h

/-- C2: diffing a valid history against itself — one whose course keys are
pairwise distinct and whose per-course assignment keys are pairwise
distinct, as every Python dictionary guarantees — produces no change
events: `compare_and_notify(A, A)` builds an empty changes list. -/
theorem diff_self_empty (A : GradeHistory) (h1 : nodupKeys A)
    (h2 : ∀ p ∈ A, nodupKeys p.2.assignments) :
    compareAndNotify A A = [] := by
  apply compareAndNotify_self_aux
  intro p hp
  exact ⟨dictGet_of_nodup A p.1 p.2 h1 hp, h2 p hp⟩

/-- Witness for `diff_self_empty` at a concrete one-course history with a
graded assignment and a Course total aggregate. -/
theorem diff_self_empty_witness :
    nodupKeys [("CS101", (⟨"55", "B", [("Midterm", ⟨"80", "30%", "65"⟩),
        ("Course total", ⟨"75", "-", "70"⟩)], "t1"⟩ : CourseData))] ∧
    compareAndNotify
      [("CS101", (⟨"55", "B", [("Midterm", ⟨"80", "30%", "65"⟩),
        ("Course total", ⟨"75", "-", "70"⟩)], "t1"⟩ : CourseData))]
      [("CS101", (⟨"55", "B", [("Midterm", ⟨"80", "30%", "65"⟩),
        ("Course total", ⟨"75", "-", "70"⟩)], "t1"⟩ : CourseData))] = [] :=
  ⟨by decide,
   diff_self_empty
     [("CS101", (⟨"55", "B", [("Midterm", ⟨"80", "30%", "65"⟩),
        ("Course total", ⟨"75", "-", "70"⟩)], "t1"⟩ : CourseData))]
     (by decide) (by decide)⟩

/-- C5 counterexample: with a configured base interval of 5 minutes
(`CHECK_INTERVAL_MINUTES=5`), the scheduler waits 300 seconds after zero
consecutive failures but only 120 seconds after one failure, so the
computed wait time is not non-decreasing in the failure count. -/
theorem backoff_wait_counterexample :
    sleepSeconds 5 0 = 300 ∧ sleepSeconds 5 1 = 120 ∧
      ¬ sleepSeconds 5 0 ≤ sleepSeconds 5 1 := by decide

/-- C5 (amended): for every configured base interval `c` (in minutes) the
wait before the next cycle is `c` minutes when the failure count is 0 and
`min(2^n, 30)` minutes when `n ≥ 1`; restricted to `n ≥ 1` the wait is
non-decreasing in `n` and never exceeds the 30-minute cap, and with the
default one-minute base interval it is non-decreasing from `n = 0` as
well, starting at the 60-second base wait. -/
theorem backoff_wait_amended (c n m : Nat) (h1 : 1 ≤ n) (h2 : n ≤ m) :
    sleepSeconds c 0 = c * 60 ∧
    sleepSeconds c n = min (2 ^ n) 30 * 60 ∧
    sleepSeconds c n ≤ sleepSeconds c m ∧
    sleepSeconds c n ≤ 30 * 60 ∧
    sleepSeconds 1 0 ≤ sleepSeconds 1 n ∧
    sleepSeconds 1 0 = 60 := by
  have key : ∀ (c' k : Nat), 1 ≤ k →
      sleepSeconds c' k = min (2 ^ k) 30 * 60 := by
    intro c' k hk
    have hk0 : k ≠ 0 := by omega
    have hw : getWaitTime k = min (2 ^ k) 30 * 60 := by
      unfold getWaitTime
      rw [if_neg hk0]
    have h2k : 2 ≤ 2 ^ k := by
      calc 2 = 2 ^ 1 := rfl
        _ ≤ 2 ^ k := Nat.pow_le_pow_right (by omega) hk
    have hmin : 2 ≤ min (2 ^ k) 30 := le_min h2k (by omega)
    have hgt : getWaitTime k > 60 := by
      rw [hw]
      omega
    unfold sleepSeconds
    rw [if_pos hgt, hw]
  have base : ∀ c' : Nat, sleepSeconds c' 0 = c' * 60 := by
    intro c'
    simp [sleepSeconds, getWaitTime]
  have hmono : sleepSeconds c n ≤ sleepSeconds c m := by
    rw [key c n h1, key c m (le_trans h1 h2)]
    exact Nat.mul_le_mul_right 60
      (min_le_min (Nat.pow_le_pow_right (by omega) h2) (le_refl 30))
  have hcap : sleepSeconds c n ≤ 30 * 60 := by
    rw [key c n h1]
    have := min_le_right (2 ^ n) 30
    omega
  have hdef : sleepSeconds 1 0 ≤ sleepSeconds 1 n := by
    rw [base 1, key 1 n h1]
    have h2n : 2 ≤ 2 ^ n := by
      calc 2 = 2 ^ 1 := rfl
        _ ≤ 2 ^ n := Nat.pow_le_pow_right (by omega) h1
    have : 2 ≤ min (2 ^ n) 30 := le_min h2n (by omega)
    omega
  exact ⟨base c, key c n h1, hmono, hcap, hdef, by rw [base 1]⟩

/-- Witness for `backoff_wait_amended` at base interval 5 and failure
counts 1 ≤ 2. -/
theorem backoff_wait_amended_witness :
    (1 : Nat) ≤ 1 ∧ (1 : Nat) ≤ 2 ∧ sleepSeconds 5 1 ≤ sleepSeconds 5 2 :=
  ⟨by decide, by decide, (backoff_wait_amended 5 1 2 (by decide) (by decide)).2.2.1⟩

/-- C6: when the fetch succeeded, the new snapshot is persisted whatever the
notification transport returns — for every transport oracle, including one
failing every dispatch, `check_grades` still calls `save_grades` with the
fetched snapshot after processing all events, and the produced events do
not depend on the oracle. -/
theorem notify_failure_still_saves (sendOk sendOk' : Nat → Bool)
    (old newG : GradeHistory) (n : Nat) :
    (checkGrades sendOk old (some newG) n).saved = some newG ∧
    (checkGrades sendOk old (some newG) n).events =
      (checkGrades sendOk' old (some newG) n).events := by
  constructor
  · simp only [checkGrades]
    split <;> rfl
  · simp only [checkGrades]
    split <;> rfl

/-- C7: a cycle whose fetch failed is atomic: nothing is saved, no events
are produced, no notification is dispatched, and the failure counter grows
by exactly one; more generally `check_grades` saves exactly its fetch
result, so the history file is (wholly) rewritten only by a successful
cycle. -/
theorem fetch_failure_atomic (sendOk : Nat → Bool) (old : GradeHistory)
    (n : Nat) (fetched : Option GradeHistory) :
    (checkGrades sendOk old fetched n).saved = fetched ∧
    (fetched = none →
      (checkGrades sendOk old fetched n).events = [] ∧
      (checkGrades sendOk old fetched n).sendResults = [] ∧
      (checkGrades sendOk old fetched n).failuresAfter = n + 1) := by
  constructor
  · cases fetched with
    | none => rfl
    | some g =>
      simp only [checkGrades]
      split <;> rfl
  · intro h
    subst h
    exact ⟨rfl, rfl, rfl⟩

/-- Witness for `fetch_failure_atomic` at a concrete failed fetch with a
prior failure count of 3. -/
theorem fetch_failure_atomic_witness :
    (checkGrades (fun _ => false) [] none 3).saved = none ∧
    (checkGrades (fun _ => false) [] none 3).events = [] ∧
    (checkGrades (fun _ => false) [] none 3).sendResults = [] ∧
    (checkGrades (fun _ => false) [] none 3).failuresAfter = 4 := by
  have h := fetch_failure_atomic (fun _ => false) [] 3 none
  exact ⟨h.1, (h.2 rfl).1, (h.2 rfl).2.1, (h.2 rfl).2.2⟩

/-- C8: after a successful login the first cycle executes with no preceding
backoff wait, and when the loaded history is empty that cycle sends the
one-time startup message, performs no diffing (no change events), and then
persists the fetched snapshot. -/
theorem first_cycle_unconditional (sendOk : Nat → Bool) (ci : Nat)
    (g : GradeHistory) (rest : List (Option GradeHistory)) (init : MonState)
    (h : init.history = []) :
    (runTrace sendOk true ci init (some g :: rest)).head? =
      some (none, checkGrades sendOk [] (some g) init.failures) ∧
    (checkGrades sendOk [] (some g) init.failures).sentStartup = true ∧
    (checkGrades sendOk [] (some g) init.failures).events = [] ∧
    (checkGrades sendOk [] (some g) init.failures).saved = some g := by
  obtain ⟨hist, nf⟩ := init
  have h' : hist = [] := h
  subst h'
  exact ⟨rfl, rfl, rfl, rfl⟩

/-- Witness for `first_cycle_unconditional`: a fresh process with empty
history and one successful fetch. -/
theorem first_cycle_unconditional_witness :
    ((⟨[], 0⟩ : MonState).history = []) ∧
    (runTrace (fun _ => true) true 1 ⟨[], 0⟩
        [some [("CS101", (⟨"55", "B", [("Midterm", ⟨"80", "30%", "65"⟩)],
          "t1"⟩ : CourseData))]]).head? =
      some (none, checkGrades (fun _ => true) []
        (some [("CS101", (⟨"55", "B", [("Midterm", ⟨"80", "30%", "65"⟩)],
          "t1"⟩ : CourseData))]) 0) ∧
    (checkGrades (fun _ => true) []
      (some [("CS101", (⟨"55", "B", [("Midterm", ⟨"80", "30%", "65"⟩)],
        "t1"⟩ : CourseData))]) 0).sentStartup = true := by
  have h := first_cycle_unconditional (fun _ => true) 1
    [("CS101", (⟨"55", "B", [("Midterm", ⟨"80", "30%", "65"⟩)], "t1"⟩ : CourseData))]
    [] ⟨[], 0⟩ rfl
  exact ⟨rfl, h.1, h.2.1⟩

/-- C10: every assignment record built by `fetch_course_details` carries a
non-empty grade string — the extractor keeps the first line of the grade
text and substitutes the `"-"` sentinel whenever the text or its first
line is empty, so no assignment is ever recorded with an empty grade. -/
theorem fetched_grade_nonempty (rows : List RawRow) (q : String × AssignData)
    (hq : q ∈ fetchCourseDetails rows) : q.2.grade ≠ "" := by
  refine fetchCourseDetails_aux rows [] ?_ q hq
  intro q' hq'
  cases hq'

/-- Witness for `fetched_grade_nonempty` at a concrete well-formed row. -/
theorem fetched_grade_nonempty_witness :
    (("Midterm", (⟨"80", "30%", "65"⟩ : AssignData)) ∈
      fetchCourseDetails
        [⟨some "Midterm", ["Midterm", "30%", "80", "65"], some "80"⟩]) ∧
    (("Midterm", (⟨"80", "30%", "65"⟩ : AssignData)).2.grade ≠ "") :=
  ⟨by decide,
   fetched_grade_nonempty
     [⟨some "Midterm", ["Midterm", "30%", "80", "65"], some "80"⟩]
     ("Midterm", (⟨"80", "30%", "65"⟩ : AssignData)) (by decide)⟩

theorem gradeOf_eq_of_dictGet (d : List (String × AssignData)) (k : String)
    (a : AssignData) (h : dictGet d k = some a) : gradeOf d k = a.grade := by
  unfold gradeOf
  rw [h]

theorem gradeOf_eq_dash (d : List (String × AssignData)) (k : String)
    (h : dictGet d k = none) : gradeOf d k = "-" := by
  unfold gradeOf
  rw [h]

theorem event_course_data (old new : GradeHistory) (hnd : nodupKeys new)
    (cn : String) (cd : CourseData) (hc : (cn, cd) ∈ new) (e : Change)
    (he : e ∈ compareAndNotify old new) (hec : eventCourse e = cn) :
    e ∈ courseEvents old cn cd := by
  obtain ⟨cn', cd', hm, hev⟩ := mem_compareAndNotify old new e he
  have h1 := (courseEvents_spec old cn' cd' e hev).1
  rw [h1] at hec
  subst hec
  have e1 := dictGet_of_nodup new cn' cd' hnd hm
  have e2 := dictGet_of_nodup new cn' cd hnd hc
  rw [e1] at e2
  injection e2 with e2
  rw [e2] at hev
  exact hev

/-- C4: the reserved aggregate name "Course total" never appears as the
`assignment` field of any emitted event; when a course of the new snapshot
holds an entry keyed exactly "Course total", its grade is surfaced as the
`course_total` field of every event of that course, and when the course
also exists in the old history with such an entry, the old aggregate grade
is surfaced as those events' `old_course_total` field. -/
theorem aggregate_exclusion (old new : GradeHistory) :
    (∀ e ∈ compareAndNotify old new, eventAssignment e ≠ "Course total") ∧
    (∀ cn cd aggRec, nodupKeys new → (cn, cd) ∈ new →
      dictGet cd.assignments "Course total" = some aggRec →
      ∀ e ∈ compareAndNotify old new, eventCourse e = cn →
        eventCourseTotal e = aggRec.grade) ∧
    (∀ cn cd ocd oagg, nodupKeys new → (cn, cd) ∈ new →
      dictGet old cn = some ocd →
      dictGet ocd.assignments "Course total" = some oagg →
      ∀ e ∈ compareAndNotify old new, eventCourse e = cn →
        eventOldCourseTotal e = some oagg.grade) := by
  refine ⟨?_, ?_, ?_⟩
  · intro e he
    obtain ⟨cn', cd', hm, hev⟩ := mem_compareAndNotify old new e he
    have h2 := (courseEvents_spec old cn' cd' e hev).2.1
    intro hx
    apply h2
    rw [hx]
    decide
  · intro cn cd aggRec hnd hc hagg e he hec
    have hev := event_course_data old new hnd cn cd hc e he hec
    have h3 := (courseEvents_spec old cn cd e hev).2.2.1
    rw [h3]
    exact gradeOf_eq_of_dictGet _ _ _ hagg
  · intro cn cd ocd oagg hnd hc ho hoagg e he hec
    have hev := event_course_data old new hnd cn cd hc e he hec
    have h4 := (courseEvents_spec old cn cd e hev).2.2.2.1 ocd ho
    rw [h4, gradeOf_eq_of_dictGet _ _ _ hoagg]

/-- Witness for `aggregate_exclusion` at the concrete grade change from
`oldHist` to `newHist`, whose single event is the updated homework. -/
theorem aggregate_exclusion_witness :
    eventAssignment
        (Change.updatedAssignment "C" "HW" "50" "70" "58" "10%" "80" "60") ≠
      "Course total" ∧
    eventCourseTotal
        (Change.updatedAssignment "C" "HW" "50" "70" "58" "10%" "80" "60") =
      ctNew.grade ∧
    eventOldCourseTotal
        (Change.updatedAssignment "C" "HW" "50" "70" "58" "10%" "80" "60") =
      some ctOld.grade := by
  have h := aggregate_exclusion oldHist newHist
  exact ⟨h.1 _ (by decide),
    h.2.1 "C" courseNew ctNew (by decide) (by decide) (by decide) _ (by decide) rfl,
    h.2.2 "C" courseNew courseOld ctOld (by decide) (by decide) (by decide)
      (by decide) _ (by decide) rfl⟩

/-- C9: the aggregate exclusion is case-insensitive while the context
lookup is exact: no emitted event's assignment name lowercases to
"course total", and when a course of the new snapshot has no entry keyed
exactly "Course total" the events of that course carry `course_total`
`"-"` (and likewise `old_course_total` is `"-"` when the old course lacks
the exact key), even if a case-variant such as "COURSE TOTAL" exists. -/
theorem aggregate_case_sensitivity (old new : GradeHistory) :
    (∀ e ∈ compareAndNotify old new, pyLower (eventAssignment e) ≠ "course total") ∧
    (∀ cn cd, nodupKeys new → (cn, cd) ∈ new →
      dictGet cd.assignments "Course total" = none →
      ∀ e ∈ compareAndNotify old new, eventCourse e = cn →
        eventCourseTotal e = "-") ∧
    (∀ cn cd ocd, nodupKeys new → (cn, cd) ∈ new →
      dictGet old cn = some ocd →
      dictGet ocd.assignments "Course total" = none →
      ∀ e ∈ compareAndNotify old new, eventCourse e = cn →
        eventOldCourseTotal e = some "-") := by
  refine ⟨?_, ?_, ?_⟩
  · intro e he
    obtain ⟨cn', cd', hm, hev⟩ := mem_compareAndNotify old new e he
    exact (courseEvents_spec old cn' cd' e hev).2.1
  · intro cn cd hnd hc hagg e he hec
    have hev := event_course_data old new hnd cn cd hc e he hec
    have h3 := (courseEvents_spec old cn cd e hev).2.2.1
    rw [h3]
    exact gradeOf_eq_dash _ _ hagg
  · intro cn cd ocd hnd hc ho hoagg e he hec
    have hev := event_course_data old new hnd cn cd hc e he hec
    have h4 := (courseEvents_spec old cn cd e hev).2.2.2.1 ocd ho
    rw [h4, gradeOf_eq_dash _ _ hoagg]

/-- Witness for `aggregate_case_sensitivity`: in the `oldMixHist` to
`newMixHist` change the aggregate exists only as "COURSE TOTAL", so the
updated-homework event carries `"-"` as both context totals. -/
theorem aggregate_case_sensitivity_witness :
    pyLower (eventAssignment
        (Change.updatedAssignment "C" "HW" "50" "70" "58" "10%" "-" "-")) ≠
      "course total" ∧
    eventCourseTotal
        (Change.updatedAssignment "C" "HW" "50" "70" "58" "10%" "-" "-") = "-" ∧
    eventOldCourseTotal
        (Change.updatedAssignment "C" "HW" "50" "70" "58" "10%" "-" "-") =
      some "-" := by
  have h := aggregate_case_sensitivity oldMixHist newMixHist
  exact ⟨h.1 _ (by decide),
    h.2.1 "C" mixNew (by decide) (by decide) (by decide) _ (by decide) rfl,
    h.2.2 "C" mixNew mixOld (by decide) (by decide) (by decide) (by decide) _
      (by decide) rfl⟩

/-- C1 counterexample: the assignment name "COURSE TOTAL" is distinct from
the reserved aggregate name "Course total" and is present in both
snapshots of course "C" with different grade strings "1" and "2", yet the
diff emits no event at all — the code skips the aggregate by
case-insensitive comparison, not by the reserved name. -/
theorem grade_change_counterexample :
    ("COURSE TOTAL" : String) ≠ "Course total" ∧
    ("COURSE TOTAL", (⟨"2", "-", "-"⟩ : AssignData)) ∈ capsNew.assignments ∧
    dictGet capsOld.assignments "COURSE TOTAL" = some ⟨"1", "-", "-"⟩ ∧
    ("1" : String) ≠ "2" ∧
    dictGet oldCapsHist "C" = some capsOld ∧
    ("C", capsNew) ∈ newCapsHist ∧
    compareAndNotify oldCapsHist newCapsHist = [] := by decide

/-- C1 (amended): with the aggregate exclusion read case-insensitively, as
the code implements it: for a course present in both histories and an
assignment of its new snapshot whose lowercased name is not
"course total" and which is present in the old assignments — a different
grade string yields exactly one event for that course and assignment,
namely the UpdatedAssignment carrying the old and new grades, while an
identical grade string yields no event for it even when weight or average
differ. -/
theorem grade_change_detection_amended (old new : GradeHistory)
    (hnd : nodupKeys new) (cn : String) (cd : CourseData) (hc : (cn, cd) ∈ new)
    (ocd : CourseData) (ho : dictGet old cn = some ocd)
    (hna : nodupKeys cd.assignments) (an : String) (ad : AssignData)
    (ha : (an, ad) ∈ cd.assignments) (hagg : pyLower an ≠ "course total")
    (oad : AssignData) (hoad : dictGet ocd.assignments an = some oad) :
    (oad.grade ≠ ad.grade →
      eventsForAssignment (eventsForCourse (compareAndNotify old new) cn) an =
        [Change.updatedAssignment cn an oad.grade ad.grade ad.average ad.weight
          (gradeOf cd.assignments "Course total")
          (gradeOf ocd.assignments "Course total")]) ∧
    (oad.grade = ad.grade →
      eventsForAssignment (eventsForCourse (compareAndNotify old new) cn) an =
        []) := by
  have hcourse : eventsForCourse (compareAndNotify old new) cn =
      courseEvents old cn cd := by
    unfold eventsForCourse
    exact compareAndNotify_filter_course old cn cd new hnd hc
  have hce : courseEvents old cn cd =
      courseChangesOld cn ocd.assignments cd.assignments := by
    unfold courseEvents
    rw [ho]
  have hkey : eventsForAssignment
      (courseChangesOld cn ocd.assignments cd.assignments) an =
      (assignEventOld cn (gradeOf ocd.assignments "Course total")
        (gradeOf cd.assignments "Course total") ocd.assignments an ad).toList := by
    unfold eventsForAssignment courseChangesOld
    exact filterMap_filter_key eventAssignment
      (fun k a => assignEventOld cn (gradeOf ocd.assignments "Course total")
        (gradeOf cd.assignments "Course total") ocd.assignments k a)
      (fun k a e hfe => (assignEventOld_spec _ _ _ _ _ _ _ hfe).2.1)
      cd.assignments hna an ad ha
  constructor
  · intro hne
    rw [hcourse, hce, hkey]
    have heq : assignEventOld cn (gradeOf ocd.assignments "Course total")
        (gradeOf cd.assignments "Course total") ocd.assignments an ad =
        some (Change.updatedAssignment cn an oad.grade ad.grade ad.average
          ad.weight (gradeOf cd.assignments "Course total")
          (gradeOf ocd.assignments "Course total")) := by
      simp only [assignEventOld, hoad]
      rw [if_neg hagg, if_neg hne]
    rw [heq]
    rfl
  · intro heqg
    rw [hcourse, hce, hkey]
    have heq : assignEventOld cn (gradeOf ocd.assignments "Course total")
        (gradeOf cd.assignments "Course total") ocd.assignments an ad = none := by
      simp only [assignEventOld, hoad]
      rw [if_pos heqg]
      exact ite_self none
    rw [heq]
    rfl

/-- Witness for `grade_change_detection_amended`: the homework of course
"C" changes from "50" to "70", and the diff's events for that course and
assignment are exactly the one expected UpdatedAssignment. -/
theorem grade_change_detection_witness :
    eventsForAssignment
        (eventsForCourse (compareAndNotify oldHist newHist) "C") "HW" =
      [Change.updatedAssignment "C" "HW" "50" "70" "58" "10%" "80" "60"] := by
  have h := grade_change_detection_amended oldHist newHist (by decide) "C"
    courseNew (by decide) courseOld (by decide) (by decide) "HW" hwNew
    (by decide) (by decide) hwOld (by decide)
  have h2 := h.1 (by decide)
  rw [h2]
  decide

/-- C3 counterexample: course "C" exists in the new history and not in the
old one, and its assignment "COURSE TOTAL" is distinct from the reserved
aggregate name "Course total", yet the diff emits no NewAssignment for it
— the code's aggregate exclusion also swallows case-variants. -/
theorem new_course_counterexample :
    dictGet ([] : GradeHistory) "C" = none ∧
    ("C", capsNew) ∈ newCapsHist ∧
    ("COURSE TOTAL" : String) ≠ "Course total" ∧
    ("COURSE TOTAL", (⟨"2", "-", "-"⟩ : AssignData)) ∈ capsNew.assignments ∧
    compareAndNotify [] newCapsHist = [] := by decide

/-- C3 (amended): for a course present in the new history and absent from
the old, the events of that course are exactly one NewAssignment per
assignment whose lowercased name is not "course total", in the course's
assignment order, each carrying the new aggregate as `course_total` and no
`old_course_total`; and every event of that course is a NewAssignment, so
no UpdatedAssignment references it. -/
theorem new_course_completeness_amended (old new : GradeHistory)
    (hnd : nodupKeys new) (cn : String) (cd : CourseData)
    (hc : (cn, cd) ∈ new) (ho : dictGet old cn = none) :
    eventsForCourse (compareAndNotify old new) cn =
      cd.assignments.filterMap (fun p =>
        if pyLower p.1 = "course total" then none
        else some (Change.newAssignment cn p.1 p.2.grade p.2.average p.2.weight
          (gradeOf cd.assignments "Course total") none)) ∧
    (∀ e ∈ compareAndNotify old new, eventCourse e = cn →
      isNewEvent e = true ∧ eventOldCourseTotal e = none) := by
  constructor
  · unfold eventsForCourse
    rw [compareAndNotify_filter_course old cn cd new hnd hc]
    have hce : courseEvents old cn cd = courseChangesNew cn cd.assignments := by
      unfold courseEvents
      rw [ho]
    rw [hce]
    rfl
  · intro e he hec
    have hev := event_course_data old new hnd cn cd hc e he hec
    have h5 := (courseEvents_spec old cn cd e hev).2.2.2.2 ho
    exact ⟨h5.2, h5.1⟩

/-- Witness for `new_course_completeness_amended`: diffing the empty
history against `newHist` yields for course "C" exactly one NewAssignment
for the homework, with the aggregate surfaced as course_total and no
old_course_total. -/
theorem new_course_completeness_witness :
    eventsForCourse (compareAndNotify [] newHist) "C" =
      [Change.newAssignment "C" "HW" "70" "58" "10%" "80" none] := by
  have h := new_course_completeness_amended [] newHist (by decide) "C" courseNew
    (by decide) rfl
  rw [h.1]
  decide
